/-
  Verification development for the `deep_learning_labs` repository.

  The repository is a set of instructional notebooks (regression, MLP
  classification, overfitting/early stopping, CNN pretraining) plus three
  from-scratch `Dataset` classes (images, speech, text).  This file gives a
  shallow embedding of the student-authored code — the batch bodies of the
  training loops, the dataset adapters, the MLP forward pass, the
  best-model selection and the evaluation functions — and proves the
  specification claims about them.
-/
import Mathlib

namespace DeepLearningLabs

/-!
## Training-loop batch model

Every training loop in the repository processes one batch with a fixed
sequence of primitive operations on the optimizer/model state.  We model the
state abstractly (parameters, predictions, loss value, gradient buffer, and a
bookkeeping log of batch losses) and each primitive as a state transformer.
The executed-event list returned alongside the state records which primitive
steps actually ran, so that conditional execution (e.g. skipping the
optimizer step) is observable.
-/

/-- Primitive operations a training-loop batch body can perform.
`guardedStep` is an optimizer step guarded by a non-zero-gradient test; it is
expressible in this operation language but is used by none of the loop bodies
translated from the source. -/
inductive TrainOp where
  | forwardPass
  | lossComp
  | zeroGrad
  | backwardPass
  | optStep
  | recordLoss
  | guardedStep
deriving DecidableEq, Repr

/-- Abstract optimizer/model state threaded through a batch body:
current parameters, last predictions, last computed loss value, the gradient
buffer (autograd accumulates into it), and the epoch bookkeeping log of batch
losses. -/
structure TrainState where
  params : ℚ
  preds : ℚ
  lossVal : ℚ
  grads : ℚ
  lossLog : List ℚ
deriving DecidableEq, Repr

/-- `optimizer.step()` for SGD: parameters move against the gradient buffer. -/
def stepParams (lr : ℚ) (s : TrainState) : TrainState :=
  { s with params := s.params - lr * s.grads }

/-- Semantics of one primitive operation.  `fwd` is the model function
(parameters to predictions for the current batch), `lossFn` the loss of the
predictions against the batch targets, `gradFn` the gradient of the batch
loss at the current parameters (what `loss.backward()` accumulates into the
gradient buffer).  Returns the new state and the list of primitive events
that were actually executed. -/
def execOp (fwd lossFn gradFn : ℚ → ℚ) (lr : ℚ) :
    TrainOp → TrainState → TrainState × List TrainOp
  | .forwardPass, s => ({ s with preds := fwd s.params }, [.forwardPass])
  | .lossComp, s => ({ s with lossVal := lossFn s.preds }, [.lossComp])
  | .zeroGrad, s => ({ s with grads := 0 }, [.zeroGrad])
  | .backwardPass, s => ({ s with grads := s.grads + gradFn s.params }, [.backwardPass])
  | .optStep, s => (stepParams lr s, [.optStep])
  | .recordLoss, s => ({ s with lossLog := s.lossLog ++ [s.lossVal] }, [.recordLoss])
  | .guardedStep, s =>
    if s.grads = 0 then (s, []) else (stepParams lr s, [.optStep])

/-- Execute a batch body (a list of operations) left to right, collecting the
events that were executed. -/
def execOps (fwd lossFn gradFn : ℚ → ℚ) (lr : ℚ) :
    List TrainOp → TrainState → TrainState × List TrainOp
  | [], s => (s, [])
  | op :: ops, s =>
    let r1 := execOp fwd lossFn gradFn lr op s
    let r2 := execOps fwd lossFn gradFn lr ops r1.1
    (r2.1, r1.2 ++ r2.2)

/-- Batch body of the linear-regression training loop
(`for epoch in range(10): y_pred = lin_reg_model(x); loss = loss_fn(y_pred, y);
optimizer.zero_grad(); loss.backward(); optimizer.step(); print(loss.item())`).
The final `print(loss.item())` reports the batch loss for epoch bookkeeping
and is modelled as recording the loss value into the log. -/
def linRegBatchOps : List TrainOp :=
  [.forwardPass, .lossComp, .zeroGrad, .backwardPass, .optStep, .recordLoss]

/-- Batch body of the nonlinear-regression training loop
(`y_pred = nonlin_reg_model(x); loss = loss_fn(y_pred, y);
optimizer.zero_grad(); loss.backward(); optimizer.step();
print(loss.item()); loss_records.append(loss.item())`). -/
def nonlinRegBatchOps : List TrainOp :=
  [.forwardPass, .lossComp, .zeroGrad, .backwardPass, .optStep, .recordLoss]

/-- Batch body of `training_mlp_classifier` (lab 3): vectorize+forward, loss,
`optimizer.zero_grad()`, `loss.backward()`, `optimizer.step()`,
`tr_loss += loss.item() * batch_size`.  The image vectorization
(`images.view(batch_size, -1)`) is input preparation folded into the forward
pass. -/
def trainingMlpClassifierBatchOps : List TrainOp :=
  [.forwardPass, .lossComp, .zeroGrad, .backwardPass, .optStep, .recordLoss]

/-- Batch body of `train_val_mlp_classifier` (lab 4): identical batch steps to
`training_mlp_classifier`, with the Adam optimizer. -/
def trainValMlpClassifierBatchOps : List TrainOp :=
  [.forwardPass, .lossComp, .zeroGrad, .backwardPass, .optStep, .recordLoss]

/-- Batch body of `training_val_cnn_classifier` (CNN pretraining script):
forward (`y_predicted = model_tr(images)`), loss, `optimizer.zero_grad()`,
`loss.backward()`, `optimizer.step()`, `tr_loss += loss.item() * images.shape[0]`. -/
def trainingValCnnClassifierBatchOps : List TrainOp :=
  [.forwardPass, .lossComp, .zeroGrad, .backwardPass, .optStep, .recordLoss]

/-- The order of batch steps the specification describes: forward pass, loss
computation, zeroing of the optimizer gradients, backward pass, optimizer
step, then batch-loss bookkeeping. -/
def specBatchOrder : List TrainOp :=
  [.forwardPass, .lossComp, .zeroGrad, .backwardPass, .optStep, .recordLoss]

/-!
## Dataset classes (lab 1): ImageDataset, SpeechDataset, TextDataset
-/

/-- `ImageDataset.__getitem__` pixel processing: the raw image array (8-bit
pixel values) is converted to float and divided by 255
(`x = torch.from_numpy(x).float(); x = x / 255.0`). -/
def imageGetItemPixels (raw : List ℕ) : List ℚ :=
  raw.map (fun (p : ℕ) => (p : ℚ) / 255)

/-- `max_len = int(max_dur * sampling_frequency)`: the target signal length in
samples.  Python `int()` truncates; for the non-negative durations used here
this is the floor. -/
def maxLenOf (maxDur : ℚ) (samplingFrequency : ℕ) : ℕ :=
  ⌊maxDur * samplingFrequency⌋.toNat

/-- `SpeechDataset._set_duration`: crop the signal to `max_len` samples if it
is longer, otherwise append zeros up to `max_len`
(`if len(y) > max_len: y = y[:max_len] else: y = torch.cat((y,
torch.zeros(max_len - len(y))))`). -/
def setDuration (y : List ℚ) (maxLen : ℕ) : List ℚ :=
  if maxLen < y.length then y.take maxLen
  else y ++ List.replicate (maxLen - y.length) 0

/-- `SpeechDataset.__getitem__` signal processing: read the file's samples,
convert to a tensor, and set the duration.  No scaling of the sample values
is performed by the class. -/
def speechGetItemSignal (fileSignal : List ℚ) (maxDur : ℚ)
    (samplingFrequency : ℕ) : List ℚ :=
  setDuration fileSignal (maxLenOf maxDur samplingFrequency)

/-- One character of `TextDataset` text cleaning: the text is lowercased and
every character that is not a lowercase ASCII letter and not a space is
replaced by a space. -/
def cleanChar (c : Char) : Char :=
  let c2 := c.toLower
  if ('a' ≤ c2 ∧ c2 ≤ 'z') then c2 else ' '

/-- Split a character list into maximal space-free words (Python
`str.split()` on the cleaned text, in which the only whitespace left is the
space character).  `acc` holds the current word reversed. -/
def splitWordsAux : List Char → List Char → List (List Char)
  | [], acc => if acc = [] then [] else [acc.reverse]
  | c :: cs, acc =>
    if c = ' ' then
      if acc = [] then splitWordsAux cs []
      else acc.reverse :: splitWordsAux cs []
    else splitWordsAux cs (c :: acc)

/-- The word list of a text file's contents after cleaning
(`text = ...strip().lower()`, replacement of non-letters by spaces, then
`text.split()`). -/
def wordsOf (text : List Char) : List (List Char) :=
  splitWordsAux (text.map cleanChar) []

/-- The `"[PAD]"` padding token. -/
def padToken : List Char := ['[', 'P', 'A', 'D', ']']

/-- `TextDataset._tokenize_text`: clean and split the text, then append
`"[PAD]"` tokens with `for i in range(self.max_seq_len - len(tokens)):
tokens.append("[PAD]")`.  When the text has more than `max_seq_len` tokens
the Python `range` is empty, so nothing is appended and nothing is removed. -/
def tokenizeText (content : List Char) (maxSeqLen : ℕ) : List (List Char) :=
  let tokens := wordsOf content
  tokens ++ List.replicate (maxSeqLen - tokens.length) padToken

/-- Lexicographic comparison of words by character code, the order Python
`sorted` uses on strings. -/
def wordLe : List Char → List Char → Bool
  | [], _ => true
  | _ :: _, [] => false
  | x :: xs, y :: ys =>
    if x = y then wordLe xs ys else decide (x < y)

/-- Insert a word into an ascending word list. -/
def insertWord (w : List Char) : List (List Char) → List (List Char)
  | [] => [w]
  | v :: vs => if wordLe w v then w :: v :: vs else v :: insertWord w vs

/-- Ascending sort of a word list (Python `sorted`). -/
def sortWords : List (List Char) → List (List Char)
  | [] => []
  | w :: ws => insertWord w (sortWords ws)

/-- `TextDataset._create_vocabulary`: the set of distinct words occurring in
the corpus (each corpus entry is one text file's contents). -/
def buildVocab (corpus : List (List Char)) : List (List Char) :=
  ((corpus.map wordsOf).flatten).dedup

/-- `TextDataset.word_to_index`: enumerate the sorted vocabulary from 0 and
map `"[PAD]"` to -1. -/
def wordToIndex (corpus : List (List Char)) (w : List Char) : ℤ :=
  if w = padToken then -1 else (sortWords (buildVocab corpus)).indexOf w

/-- `TextDataset.__getitem__` token processing: tokenize (and pad) the
`index`-th file's text, then map each token to its vocabulary index
(`x = torch.IntTensor([self.word_to_index[word] for word in tokens])`). -/
def textGetItemTokenIds (corpus : List (List Char)) (index : ℕ)
    (maxSeqLen : ℕ) : List ℤ :=
  (tokenizeText (corpus.getD index []) maxSeqLen).map (wordToIndex corpus)

/-!
## Dataloader batching and the epoch loop

`DataLoader(dataset, batch_size=batch_size, ...)` cuts the dataset into
consecutive batches of `batch_size` samples; with `drop_last=True` the final
incomplete batch is dropped.  An epoch (`for batch_index, (images, labels) in
enumerate(train_dataloader): ...`) consumes the yielded batches in order,
once each.  (`shuffle=True` permutes the dataset before batching; the
coverage statements below are about the dataset the loader iterates over.)
-/

/-- Cut a list into consecutive chunks of `bs` elements; the final chunk may
be shorter.  A `DataLoader` requires `batch_size ≥ 1`; for `bs = 0` we return
no batches. -/
def chunkList : ℕ → List α → List (List α)
  | _, [] => []
  | 0, _ :: _ => []
  | b + 1, x :: xs =>
    ((x :: xs).take (b + 1)) :: chunkList (b + 1) ((x :: xs).drop (b + 1))
termination_by _ l => l.length
decreasing_by simp; omega

/-- The batches a `DataLoader` without shuffling yields: consecutive chunks
of `bs` samples, with the final incomplete chunk dropped when
`drop_last=True`. -/
def dataloaderBatches (bs : ℕ) (dropLast : Bool) (data : List α) :
    List (List α) :=
  let cs := chunkList bs data
  if dropLast then cs.filter (fun c => c.length == bs) else cs

/-- The batches an epoch's `for` loop consumes, in order: iterating a Python
iterable with `for`/`enumerate` visits each yielded item exactly once. -/
def epochConsumedBatches (batches : List (List α)) : List (List α) :=
  batches.foldl (fun log b => log ++ [b]) []

theorem foldl_append_log (batches : List (List α)) (init : List (List α)) :
    batches.foldl (fun log b => log ++ [b]) init = init ++ batches := by
  induction batches generalizing init with
  | nil => simp
  | cons b bs ih => simp [List.foldl_cons, ih]

theorem chunkList_flatten (b : ℕ) (l : List α) :
    (chunkList (b + 1) l).flatten = l := by
  match l with
  | [] => simp [chunkList]
  | x :: xs =>
    rw [chunkList, List.flatten_cons,
      chunkList_flatten b ((x :: xs).drop (b + 1)), List.take_append_drop]
termination_by l.length
decreasing_by simp; omega

theorem chunkList_full_chunks (b : ℕ) (l : List α)
    (hdvd : (b + 1) ∣ l.length) :
    ∀ c ∈ chunkList (b + 1) l, c.length = b + 1 := by
  match l with
  | [] => intro c hc; simp [chunkList] at hc
  | x :: xs =>
    intro c hc
    rw [chunkList] at hc
    rcases List.mem_cons.mp hc with h | h
    · subst h
      have hge : b + 1 ≤ (x :: xs).length := Nat.le_of_dvd (by simp) hdvd
      simp only [List.length_take]
      omega
    · have hdvd2 : (b + 1) ∣ ((x :: xs).drop (b + 1)).length := by
        simp only [List.length_drop]
        exact (Nat.dvd_sub' hdvd dvd_rfl)
      exact chunkList_full_chunks b ((x :: xs).drop (b + 1)) hdvd2 c h
termination_by l.length
decreasing_by simp; omega

/-!
## Dataset file-listing adapters

Each of `ImageDataset`, `SpeechDataset`, `TextDataset` builds its file list
in `__init__` as `sorted(self._find_files(dir))`, where `_find_files` walks
the directory and keeps the file paths matching the class's pattern
(`*.png`, `*.wav`, `*.txt`).  `__len__` returns the length of this list, and
`__getitem__(index)` reads the file at position `index` of it.  We model the
walked directory as the list of file paths the walk visits.
-/

/-- `_find_files`: keep the walked paths matching `fnmatch` pattern
`*.<ext>`, i.e. the paths ending in the extension. -/
def findFiles (ext : String) (walkFiles : List String) : List String :=
  walkFiles.filter (fun p => p.endsWith ext)

/-- `sorted(...)`: ascending lexicographic sort of the matching paths
(Python sorts strings by code point). -/
def datasetPathList (ext : String) (walkFiles : List String) : List String :=
  List.insertionSort (· ≤ ·) (findFiles ext walkFiles)

/-- `__len__`: the length of the stored path list. -/
def datasetLen (ext : String) (walkFiles : List String) : ℕ :=
  (datasetPathList ext walkFiles).length

/-- The path `__getitem__(index)` reads: position `index` of the sorted path
list (`image_path = self.image_path_list[index]`, and likewise for audio and
text). -/
def datasetGetPath (ext : String) (walkFiles : List String) (index : ℕ) :
    Option String :=
  (datasetPathList ext walkFiles).get? index

/-!
## MLPClassif (lab 3)

`MLPClassif.__init__` builds
`input_layer = nn.Sequential(nn.Linear(input_size, hidden_size), act_fn)`,
`hidden_layer = nn.Sequential(nn.Linear(hidden_size, hidden_size), act_fn)`,
`output_layer = nn.Linear(hidden_size, output_size)`, and `forward` computes
`y = input_layer(x); z = hidden_layer(y); out = output_layer(z)`.  A linear
layer on a batch acts row-wise; we model one row as a rational vector.
-/

/-- An `nn.Linear` layer: a weight matrix (one row per output feature) and a
bias vector. -/
structure LinearLayer where
  weight : List (List ℚ)
  bias : List ℚ

/-- Dot product of two vectors (missing entries contribute zero). -/
def dotProduct : List ℚ → List ℚ → ℚ
  | [], _ => 0
  | _ :: _, [] => 0
  | a :: as, b :: bs => a * b + dotProduct as bs

/-- Apply an `nn.Linear` layer to an input vector: `W x + b`. -/
def LinearLayer.apply (layer : LinearLayer) (x : List ℚ) : List ℚ :=
  (layer.weight.zip layer.bias).map (fun rb => dotProduct rb.1 x + rb.2)

/-- Apply an element-wise activation function. -/
def applyAct (act : ℚ → ℚ) (x : List ℚ) : List ℚ := x.map act

/-- The `MLPClassif` module: three linear layers and the activation passed as
`act_fn`. -/
structure MLPClassif where
  inputLin : LinearLayer
  hiddenLin : LinearLayer
  outputLin : LinearLayer
  act : ℚ → ℚ

/-- `self.input_layer = nn.Sequential(nn.Linear(input_size, hidden_size), act_fn)`. -/
def MLPClassif.inputLayer (m : MLPClassif) (x : List ℚ) : List ℚ :=
  applyAct m.act (m.inputLin.apply x)

/-- `self.hidden_layer = nn.Sequential(nn.Linear(hidden_size, hidden_size), act_fn)`. -/
def MLPClassif.hiddenLayer (m : MLPClassif) (x : List ℚ) : List ℚ :=
  applyAct m.act (m.hiddenLin.apply x)

/-- `self.output_layer = nn.Linear(hidden_size, output_size)` — no activation. -/
def MLPClassif.outputLayer (m : MLPClassif) (x : List ℚ) : List ℚ :=
  m.outputLin.apply x

/-- `MLPClassif.forward`:
`y = self.input_layer(x); z = self.hidden_layer(y); out = self.output_layer(z);
return out`, acting row-wise on a batch of shape `[batch_size, input_size]`. -/
def MLPClassif.forward (m : MLPClassif) (x : List ℚ) : List ℚ :=
  let y := m.inputLayer x
  let z := m.hiddenLayer y
  let out := m.outputLayer z
  out

/-- `forward` on a batch of shape `[batch_size, input_size]`. -/
def MLPClassif.forwardBatch (m : MLPClassif) (xs : List (List ℚ)) :
    List (List ℚ) :=
  xs.map m.forward

/-- The composition the specification describes: `Linear(input_size,
hidden_size) -> activation -> Linear(hidden_size, hidden_size) -> activation
-> Linear(hidden_size, output_size)`, with no activation after the output
layer. -/
def mlpSpecComposition (m : MLPClassif) (x : List ℚ) : List ℚ :=
  m.outputLin.apply (applyAct m.act (m.hiddenLin.apply
    (applyAct m.act (m.inputLin.apply x))))

/-!
## Frame behaviour of the training functions

Each training function begins with `model_tr = copy.deepcopy(model)` and
then only ever mutates `model_tr` (the optimizer is constructed on
`model_tr.parameters()` and `optimizer.step()` writes those parameters;
`model_opt = copy.deepcopy(model_tr)` allocates further copies).  We model
Python object identity with an explicit store: a list of parameter vectors
indexed by reference. -/

/-- The parameter vector of one model object. -/
abbrev ModelParams := List ℚ

/-- The heap of model objects; a reference is an index into the store. -/
abbrev ModelStore := List ModelParams

/-- The mutating operations a training function performs on model objects:
`step f` is an `optimizer.step()` writing the trained model's parameters,
and `snapshot` is a `copy.deepcopy(model_tr)` allocating a fresh copy
(`model_opt`). -/
inductive ModelOp where
  | step (f : ModelParams → ModelParams)
  | snapshot

/-- Run the body of a training function after the initial deepcopy: every
`step` writes the parameters of the trained-model reference `trRef`, every
`snapshot` appends a copy of them to the store. -/
def runModelOps : List ModelOp → ModelStore → ℕ → ModelStore
  | [], st, _ => st
  | .step f :: ops, st, trRef =>
    runModelOps ops (st.set trRef (f (st.getD trRef []))) trRef
  | .snapshot :: ops, st, trRef =>
    runModelOps ops (st ++ [st.getD trRef []]) trRef

/-- A training function (`training_mlp_classifier`,
`train_val_mlp_classifier`, `training_val_cnn_classifier`):
`model_tr = copy.deepcopy(model)` allocates a fresh object holding the same
parameters, and all subsequent updates go through that new reference.
Returns the final store and the trained-model reference. -/
def trainingRun (ops : List ModelOp) (st : ModelStore) (modelRef : ℕ) :
    ModelStore × ℕ :=
  let st1 := st ++ [st.getD modelRef []]
  let trRef := st.length
  (runModelOps ops st1 trRef, trRef)

theorem runModelOps_frame (ops : List ModelOp) (st : ModelStore)
    (trRef r : ℕ) (hr : r < st.length) (hne : r ≠ trRef) :
    (runModelOps ops st trRef)[r]? = st[r]? := by
  induction ops generalizing st with
  | nil => rfl
  | cons op ops ih =>
    cases op with
    | step f =>
      rw [runModelOps]
      rw [ih (st.set trRef (f (st.getD trRef []))) (by simpa using hr)]
      exact List.getElem?_set_ne (Ne.symm hne)
    | snapshot =>
      rw [runModelOps]
      rw [ih (st ++ [st.getD trRef []]) (by simp; omega)]
      exact List.getElem?_append_left hr

/-!
## Best-model selection in the validation training functions

`train_val_mlp_classifier` keeps `accuracy_max = 0` and, after each epoch,
runs `if accuracy > accuracy_max: accuracy_max = accuracy;
model_opt = copy.deepcopy(model_tr)` (its `model_opt` starts as a copy of the
initial model).  `training_val_cnn_classifier` keeps `val_acc_opt = 0` and
runs `if val_acc > val_acc_opt: model_opt = copy.deepcopy(model_tr);
val_acc_opt = val_acc` (its `model_opt` starts unbound, modelled as `none`).
We model the epoch sequence as a list of pairs (trained-model state at the
end of the epoch, validation accuracy of that epoch) and fold the update
over it. -/

/-- The running best-accuracy/best-model fold of the validation training
functions: the stored model and maximum are replaced exactly when the new
accuracy strictly exceeds the running maximum. -/
def selectOpt {M : Type} : ℚ → Option M → List (M × ℚ) → ℚ × Option M
  | accMax, mOpt, [] => (accMax, mOpt)
  | accMax, mOpt, (m, acc) :: rest =>
    if accMax < acc then selectOpt acc (some m) rest
    else selectOpt accMax mOpt rest

theorem selectOpt_fst {M : Type} (l : List (M × ℚ)) (a : ℚ) (m : Option M) :
    (selectOpt a m l).1 = (l.map Prod.snd).foldl max a := by
  induction l generalizing a m with
  | nil => rfl
  | cons p rest ih =>
    obtain ⟨pm, pa⟩ := p
    simp only [selectOpt, List.map_cons, List.foldl_cons]
    by_cases h : a < pa
    · rw [if_pos h, ih, max_eq_right h.le]
    · rw [if_neg h, ih, max_eq_left (le_of_not_lt h)]

theorem selectOpt_of_forall_le {M : Type} (l : List (M × ℚ)) (a : ℚ)
    (m : Option M) (h : ∀ p ∈ l, p.2 ≤ a) : selectOpt a m l = (a, m) := by
  induction l generalizing a m with
  | nil => rfl
  | cons p rest ih =>
    obtain ⟨pm, pa⟩ := p
    simp only [selectOpt]
    rw [if_neg (not_lt.mpr (h (pm, pa) (List.mem_cons_self _ _)))]
    exact ih a m (fun q hq => h q (List.mem_cons_of_mem _ hq))

theorem selectOpt_found {M : Type} :
    ∀ (l : List (M × ℚ)) (a : ℚ) (m : Option M),
      (∃ p ∈ l, a < p.2) →
      ∃ i, ∃ hi : i < l.length,
        (selectOpt a m l).2 = some (l[i]).1 ∧
        (l[i]).2 = (selectOpt a m l).1 ∧
        a < (l[i]).2 ∧
        ∀ j (hj : j < l.length), j < i → (l[j]).2 < (l[i]).2 := by
  intro l
  induction l with
  | nil => intro a m h; simp at h
  | cons p rest ih =>
    intro a m h
    obtain ⟨pm, pa⟩ := p
    by_cases hlt : a < pa
    · by_cases hex : ∃ q ∈ rest, pa < q.2
      · obtain ⟨i, hi, h1, h2, h3, h4⟩ := ih pa (some pm) hex
        refine ⟨i + 1, Nat.succ_lt_succ hi, ?_, ?_, ?_, ?_⟩
        · simpa only [selectOpt, if_pos hlt, List.getElem_cons_succ] using h1
        · simpa only [selectOpt, if_pos hlt, List.getElem_cons_succ] using h2
        · exact lt_trans hlt (by simpa only [List.getElem_cons_succ] using h3)
        · intro j hj hji
          match j with
          | 0 =>
            simpa only [List.getElem_cons_zero, List.getElem_cons_succ] using h3
          | k + 1 =>
            have hk : k < rest.length := by simpa using hj
            simpa only [List.getElem_cons_succ] using h4 k hk (by omega)
      · push_neg at hex
        have hsel : selectOpt pa (some pm) rest = (pa, some pm) :=
          selectOpt_of_forall_le rest pa (some pm) hex
        refine ⟨0, by simp, ?_, ?_, ?_, ?_⟩
        · simp only [selectOpt, if_pos hlt, hsel, List.getElem_cons_zero]
        · simp only [selectOpt, if_pos hlt, hsel, List.getElem_cons_zero]
        · simpa only [List.getElem_cons_zero] using hlt
        · intro j hj hji; omega
    · have hex : ∃ q ∈ rest, a < q.2 := by
        obtain ⟨q, hq, hqa⟩ := h
        rcases List.mem_cons.mp hq with rfl | hq2
        · exact absurd hqa hlt
        · exact ⟨q, hq2, hqa⟩
      obtain ⟨i, hi, h1, h2, h3, h4⟩ := ih a m hex
      refine ⟨i + 1, Nat.succ_lt_succ hi, ?_, ?_, ?_, ?_⟩
      · simpa only [selectOpt, if_neg hlt, List.getElem_cons_succ] using h1
      · simpa only [selectOpt, if_neg hlt, List.getElem_cons_succ] using h2
      · simpa only [List.getElem_cons_succ] using h3
      · intro j hj hji
        match j with
        | 0 =>
          have hpa : pa ≤ a := le_of_not_lt hlt
          simp only [List.getElem_cons_zero, List.getElem_cons_succ]
          exact lt_of_le_of_lt hpa h3
        | k + 1 =>
          have hk : k < rest.length := by simpa using hj
          simpa only [List.getElem_cons_succ] using h4 k hk (by omega)

/-!
## Evaluation functions

`eval_mlp_classifier` and `eval_cnn_classifier` iterate over the evaluation
dataloader, count `total += labels.size(0)` and
`correct += (labels_predicted == labels).sum().item()`, and finally compute
`accuracy = 100 * correct / total` unconditionally.  We model each batch as
the list of (predicted label, true label) pairs produced by the per-sample
argmax, and the final division as fallible (Python raises
`ZeroDivisionError` when `total == 0`). -/

/-- Correct predictions in one batch: pairs whose predicted label equals the
true label. -/
def batchCorrect (b : List (ℤ × ℤ)) : ℕ :=
  (b.filter (fun pl => pl.1 == pl.2)).length

/-- The (correct, total) counters accumulated over the dataloader's batches. -/
def evalTotals (batches : List (List (ℤ × ℤ))) : ℕ × ℕ :=
  batches.foldl (fun ct b => (ct.1 + batchCorrect b, ct.2 + b.length)) (0, 0)

/-- `accuracy = 100 * correct / total`, fallible: `none` models the
`ZeroDivisionError` Python raises when the dataloader yielded no labels. -/
def evalClassifier (batches : List (List (ℤ × ℤ))) : Option ℚ :=
  let ct := evalTotals batches
  if ct.2 = 0 then none else some (100 * (ct.1 : ℚ) / (ct.2 : ℚ))

theorem evalTotals_aux_le (batches : List (List (ℤ × ℤ))) :
    ∀ c t : ℕ, c ≤ t →
      (batches.foldl (fun ct b => (ct.1 + batchCorrect b, ct.2 + b.length))
        (c, t)).1 ≤
      (batches.foldl (fun ct b => (ct.1 + batchCorrect b, ct.2 + b.length))
        (c, t)).2 := by
  induction batches with
  | nil => intro c t h; exact h
  | cons b bs ih =>
    intro c t h
    simp only [List.foldl_cons]
    refine ih (c + batchCorrect b) (t + b.length) ?_
    have hb : batchCorrect b ≤ b.length := List.length_filter_le _ b
    omega

theorem evalTotals_le (batches : List (List (ℤ × ℤ))) :
    (evalTotals batches).1 ≤ (evalTotals batches).2 :=
  evalTotals_aux_le batches 0 0 (le_refl 0)

end DeepLearningLabs

namespace DeepLearningLabs

/-- C1: every training loop's batch body performs exactly the steps
forward pass, loss computation, gradient zeroing, backward pass, optimizer
step, batch-loss bookkeeping, in this order; consequently the executed batch
semantics computes this batch's predictions and loss, and the optimizer step
uses exactly this batch's freshly computed gradient. -/
theorem training_loops_batch_order :
    (linRegBatchOps = specBatchOrder ∧
     nonlinRegBatchOps = specBatchOrder ∧
     trainingMlpClassifierBatchOps = specBatchOrder ∧
     trainValMlpClassifierBatchOps = specBatchOrder ∧
     trainingValCnnClassifierBatchOps = specBatchOrder) ∧
    ∀ (fwd lossFn gradFn : ℚ → ℚ) (lr : ℚ) (s : TrainState),
      (execOps fwd lossFn gradFn lr specBatchOrder s).1 =
        { params := s.params - lr * gradFn s.params
          preds := fwd s.params
          lossVal := lossFn (fwd s.params)
          grads := gradFn s.params
          lossLog := s.lossLog ++ [lossFn (fwd s.params)] } := by
  refine ⟨⟨rfl, rfl, rfl, rfl, rfl⟩, ?_⟩
  intro fwd lossFn gradFn lr s
  simp [execOps, execOp, stepParams, specBatchOrder]

/-- C4 counterexample: the claimed zero-gradient skip does not exist.  On a
batch whose loss gradients are identically zero (`gradFn = fun _ => 0`), the
batch body of `training_mlp_classifier` still executes the optimizer step:
`optStep` occurs among the executed events.  The same body is shared by every
training loop (see `training_loops_batch_order`). -/
theorem zero_gradient_skip_counterexample :
    TrainOp.optStep ∈
      (execOps (fun p => p) (fun p => p) (fun _ => 0) 1
        trainingMlpClassifierBatchOps
        { params := 1, preds := 0, lossVal := 0, grads := 5, lossLog := [] }).2 := by
  decide

/-- C4 amended: the repository's training loops contain no failure handling
at all.  Every batch body executes its six operations unconditionally — for
any model, loss, gradient function (including identically zero gradients) and
any starting state, the executed events are exactly the written operations,
optimizer step included — and no conditional operation (such as a
zero-gradient guard on the step) occurs in any loop body. -/
theorem training_loops_no_failure_handling :
    (∀ (fwd lossFn gradFn : ℚ → ℚ) (lr : ℚ) (s : TrainState),
      (execOps fwd lossFn gradFn lr linRegBatchOps s).2 = linRegBatchOps ∧
      (execOps fwd lossFn gradFn lr nonlinRegBatchOps s).2 = nonlinRegBatchOps ∧
      (execOps fwd lossFn gradFn lr trainingMlpClassifierBatchOps s).2 =
        trainingMlpClassifierBatchOps ∧
      (execOps fwd lossFn gradFn lr trainValMlpClassifierBatchOps s).2 =
        trainValMlpClassifierBatchOps ∧
      (execOps fwd lossFn gradFn lr trainingValCnnClassifierBatchOps s).2 =
        trainingValCnnClassifierBatchOps) ∧
    (TrainOp.guardedStep ∉ linRegBatchOps ∧
     TrainOp.guardedStep ∉ nonlinRegBatchOps ∧
     TrainOp.guardedStep ∉ trainingMlpClassifierBatchOps ∧
     TrainOp.guardedStep ∉ trainValMlpClassifierBatchOps ∧
     TrainOp.guardedStep ∉ trainingValCnnClassifierBatchOps) := by
  exact ⟨fun fwd lossFn gradFn lr s => ⟨rfl, rfl, rfl, rfl, rfl⟩, by decide⟩

set_option maxRecDepth 100000 in
/-- C2 counterexample: `TextDataset.__getitem__` does not truncate.  A text
file containing 129 words, read with the default `max_seq_len = 128`, yields
a token tensor of length 129, not 128: the padding loop
`for i in range(max_seq_len - len(tokens))` is empty when the text is longer
than `max_seq_len`, and nothing is ever removed. -/
theorem text_dataset_no_truncation_counterexample :
    (textGetItemTokenIds
      [List.intercalate [' '] (List.replicate 129 ['a'])] 0 128).length ≠ 128 := by
  decide

/-- C2 amended: `SpeechDataset.__getitem__` does return a signal of length
exactly `int(max_dur * sampling_frequency)` regardless of the file length,
but `TextDataset.__getitem__` only pads and never truncates: its token tensor
has length `max(number of tokens, max_seq_len)`, which exceeds `max_seq_len`
whenever the text file contains more than `max_seq_len` tokens. -/
theorem dataset_fixed_length_amended :
    (∀ (sig : List ℚ) (maxDur : ℚ) (fs : ℕ),
      (speechGetItemSignal sig maxDur fs).length = maxLenOf maxDur fs) ∧
    (∀ (corpus : List (List Char)) (index maxSeqLen : ℕ),
      (textGetItemTokenIds corpus index maxSeqLen).length =
        max (wordsOf (corpus.getD index [])).length maxSeqLen) := by
  constructor
  · intro sig maxDur fs
    unfold speechGetItemSignal setDuration
    split
    · simp only [List.length_take]
      omega
    · simp only [List.length_append, List.length_replicate]
      omega
  · intro corpus index maxSeqLen
    unfold textGetItemTokenIds tokenizeText
    simp only [List.length_map, List.length_append, List.length_replicate]
    omega

/-- C3 counterexample: `SpeechDataset` and `TextDataset` do not normalize
their samples.  A text corpus with three distinct words produces token ids
`[1, 0, 2, -1]` — values outside `[0, 1]` — and a speech file whose samples
are `[2, 3]` is returned with those values unchanged (no division by 255 or
any other scaling). -/
theorem dataset_normalization_counterexample :
    (¬ ∀ v ∈ textGetItemTokenIds ["b a c".toList] 0 4, 0 ≤ v ∧ v ≤ 1) ∧
    speechGetItemSignal [2, 3] 2 1 = [2, 3] := by
  constructor
  · decide
  · have hm : maxLenOf 2 1 = 2 := by
      unfold maxLenOf
      norm_num
      rfl
    unfold speechGetItemSignal
    rw [hm]
    rfl

/-- C3 amended: only `ImageDataset` normalizes.  `ImageDataset.__getitem__`
returns the raw pixel values divided by 255 (hence entries in `[0, 1]` for
8-bit images), while `SpeechDataset.__getitem__` returns the audio samples as
read — every output value is either a value of the file or a padding zero,
with no scaling — and `TextDataset.__getitem__` returns raw vocabulary
indices (`-1` for padding, non-negative integers otherwise), which are not
normalized. -/
theorem dataset_normalization_amended :
    (∀ raw : List ℕ, imageGetItemPixels raw = raw.map (fun (p : ℕ) => (p : ℚ) / 255)) ∧
    (∀ raw : List ℕ, (∀ p ∈ raw, p ≤ 255) →
      ∀ v ∈ imageGetItemPixels raw, 0 ≤ v ∧ v ≤ 1) ∧
    (∀ (sig : List ℚ) (maxDur : ℚ) (fs : ℕ),
      ∀ v ∈ speechGetItemSignal sig maxDur fs, v = 0 ∨ v ∈ sig) ∧
    (∀ (corpus : List (List Char)) (index maxSeqLen : ℕ),
      ∀ v ∈ textGetItemTokenIds corpus index maxSeqLen, v = -1 ∨ 0 ≤ v) := by
  refine ⟨fun raw => rfl, ?_, ?_, ?_⟩
  · intro raw hraw v hv
    rw [imageGetItemPixels, List.mem_map] at hv
    obtain ⟨p, hp, hpe⟩ := hv
    subst hpe
    have h255 : (p : ℚ) ≤ 255 := by exact_mod_cast hraw p hp
    constructor
    · positivity
    · rw [div_le_one (by norm_num)]
      exact h255
  · intro sig maxDur fs v hv
    unfold speechGetItemSignal setDuration at hv
    split at hv
    · exact Or.inr (List.mem_of_mem_take hv)
    · rcases List.mem_append.mp hv with h | h
      · exact Or.inr h
      · exact Or.inl (List.eq_of_mem_replicate h)
  · intro corpus index maxSeqLen v hv
    simp only [textGetItemTokenIds, List.mem_map] at hv
    obtain ⟨w, _, rfl⟩ := hv
    unfold wordToIndex
    split
    · exact Or.inl rfl
    · exact Or.inr (Int.ofNat_nonneg _)

/-- C5: one epoch is one full pass over the training dataset.  The epoch
loop consumes every batch the dataloader yields exactly once and in order,
and — for the repository's dataloaders, whose batch size divides the dataset
length whenever `drop_last=True` is set (lab 3 uses 400 samples with
batch size 8 and `drop_last=True`; the other training functions use loaders
without `drop_last`) — the yielded batches concatenate back to the whole
dataset, so every sample is processed exactly once per epoch. -/
theorem epoch_one_full_pass :
    ∀ (data : List α) (bs : ℕ) (dropLast : Bool),
      0 < bs → (dropLast = false ∨ bs ∣ data.length) →
      epochConsumedBatches (dataloaderBatches bs dropLast data) =
        dataloaderBatches bs dropLast data ∧
      (dataloaderBatches bs dropLast data).flatten = data := by
  intro data bs dropLast hbs hcase
  constructor
  · rw [epochConsumedBatches, foldl_append_log, List.nil_append]
  · obtain ⟨b, rfl⟩ : ∃ b, bs = b + 1 := ⟨bs - 1, by omega⟩
    cases dropLast with
    | false =>
      simp only [dataloaderBatches, if_neg Bool.false_ne_true]
      exact chunkList_flatten b data
    | true =>
      have hdvd : (b + 1) ∣ data.length := by
        rcases hcase with h | h
        · exact absurd h (by simp)
        · exact h
      simp only [dataloaderBatches, if_pos rfl]
      rw [List.filter_eq_self.mpr]
      · exact chunkList_flatten b data
      · intro c hc
        exact beq_iff_eq.mpr (chunkList_full_chunks b data hdvd c hc)

/-- C7: for every input batch of shape `[batch_size, input_size]`,
`MLPClassif.forward` equals `output_layer(hidden_layer(input_layer(x)))`
row-wise, which is the sequential composition `Linear(input_size,
hidden_size) -> activation -> Linear(hidden_size, hidden_size) -> activation
-> Linear(hidden_size, output_size)` with no activation after the output
layer. -/
theorem mlp_forward_is_composition :
    ∀ (m : MLPClassif) (xs : List (List ℚ)),
      m.forwardBatch xs =
        xs.map (fun x => m.outputLayer (m.hiddenLayer (m.inputLayer x))) ∧
      ∀ x : List ℚ, m.forward x = mlpSpecComposition m x := by
  intro m xs
  exact ⟨rfl, fun x => rfl⟩

/-- C9: for `train_val_mlp_classifier` (whose `model_opt` starts as a copy
of the initial model, `m0 = some model`) and `training_val_cnn_classifier`
(whose `model_opt` starts unbound, `m0 = none`), provided at least one
epoch's validation accuracy is strictly positive, the returned model is the
deep copy of the trained model taken at the first epoch achieving the
maximum of the `val_accuracies` list: the returned model is the model state
of an epoch `i` whose recorded validation accuracy equals
`max(val_accuracies)` (the running maximum, started at 0 and updated only on
strict improvement), and every earlier epoch has strictly smaller accuracy. -/
theorem best_model_by_validation_accuracy {M : Type} :
    ∀ (epochs : List (M × ℚ)) (m0 : Option M),
      (∃ p ∈ epochs, 0 < p.2) →
      ∃ i, ∃ hi : i < epochs.length,
        (selectOpt 0 m0 epochs).2 = some (epochs[i]).1 ∧
        (epochs[i]).2 = (epochs.map Prod.snd).foldl max 0 ∧
        ∀ j (hj : j < epochs.length), j < i → (epochs[j]).2 < (epochs[i]).2 := by
  intro epochs m0 h
  obtain ⟨i, hi, h1, h2, _h3, h4⟩ := selectOpt_found epochs 0 m0 h
  exact ⟨i, hi, h1, by rw [h2, selectOpt_fst], h4⟩

/-- Witness for `best_model_by_validation_accuracy`: three epochs with
accuracies 50, 80, 80 (models numbered 1, 2, 3) and an unbound initial
`model_opt`.  Epoch 1 (0-based) is the first to reach the maximum 80, so
model 2 is returned. -/
theorem best_model_by_validation_accuracy_witness :
    (∃ p ∈ [((1 : ℕ), (50 : ℚ)), (2, 80), (3, 80)], 0 < p.2) ∧
    ∃ i, ∃ hi : i < [((1 : ℕ), (50 : ℚ)), (2, 80), (3, 80)].length,
      (selectOpt 0 none [((1 : ℕ), (50 : ℚ)), (2, 80), (3, 80)]).2 =
        some ([((1 : ℕ), (50 : ℚ)), (2, 80), (3, 80)][i]).1 ∧
      ([((1 : ℕ), (50 : ℚ)), (2, 80), (3, 80)][i]).2 =
        ([((1 : ℕ), (50 : ℚ)), (2, 80), (3, 80)].map Prod.snd).foldl max 0 ∧
      ∀ j (hj : j < [((1 : ℕ), (50 : ℚ)), (2, 80), (3, 80)].length),
        j < i →
        ([((1 : ℕ), (50 : ℚ)), (2, 80), (3, 80)][j]).2 <
          ([((1 : ℕ), (50 : ℚ)), (2, 80), (3, 80)][i]).2 :=
  ⟨⟨(1, 50), by norm_num⟩,
    best_model_by_validation_accuracy
      [((1 : ℕ), (50 : ℚ)), (2, 80), (3, 80)] none ⟨(1, 50), by norm_num⟩⟩

/-- C10: `eval_mlp_classifier` and `eval_cnn_classifier` return an accuracy
in the closed interval `[0, 100]` whenever the evaluation dataloader yields
at least one label, and fail with a division-by-zero error (modelled as
`none`) when it yields none: the final statement
`accuracy = 100 * correct / total` divides by `total = 0`. -/
theorem eval_accuracy_bounds :
    ∀ batches : List (List (ℤ × ℤ)),
      (0 < (evalTotals batches).2 →
        ∃ a, evalClassifier batches = some a ∧ 0 ≤ a ∧ a ≤ 100) ∧
      ((evalTotals batches).2 = 0 → evalClassifier batches = none) := by
  intro batches
  constructor
  · intro hpos
    have hne : (evalTotals batches).2 ≠ 0 := by omega
    refine ⟨100 * ((evalTotals batches).1 : ℚ) / ((evalTotals batches).2 : ℚ),
      by rw [evalClassifier]; rw [if_neg hne], ?_, ?_⟩
    · positivity
    · have hct : ((evalTotals batches).1 : ℚ) ≤ ((evalTotals batches).2 : ℚ) := by
        exact_mod_cast evalTotals_le batches
      have ht : (0 : ℚ) < ((evalTotals batches).2 : ℚ) := by exact_mod_cast hpos
      rw [div_le_iff₀ ht]
      nlinarith
  · intro hzero
    rw [evalClassifier]
    rw [if_pos hzero]

/-- Witness for `eval_accuracy_bounds`: a dataloader yielding one batch with
two labels, one predicted correctly; the accuracy exists and lies in
`[0, 100]` (it is 50).  And the empty dataloader has `total = 0`, so
evaluation fails with the division-by-zero `none`. -/
theorem eval_accuracy_bounds_witness :
    (0 < (evalTotals [[((1 : ℤ), (1 : ℤ)), (0, 2)]]).2 ∧
      ∃ a, evalClassifier [[((1 : ℤ), (1 : ℤ)), (0, 2)]] = some a ∧
        0 ≤ a ∧ a ≤ 100) ∧
    ((evalTotals ([] : List (List (ℤ × ℤ)))).2 = 0 ∧
      evalClassifier ([] : List (List (ℤ × ℤ))) = none) :=
  ⟨⟨by decide, (eval_accuracy_bounds [[((1 : ℤ), (1 : ℤ)), (0, 2)]]).1 (by decide)⟩,
    ⟨by decide, (eval_accuracy_bounds ([] : List (List (ℤ × ℤ)))).2 (by decide)⟩⟩

/-- C8: every training function leaves the model passed as its argument
unchanged.  `model_tr = copy.deepcopy(model)` allocates a fresh reference and
every subsequent parameter write (optimizer steps) and allocation
(`model_opt` deep copies) touches only references other than the argument
model's, so after the call the argument model's parameters in the store are
exactly what they were before the call. -/
theorem training_leaves_argument_model_unchanged :
    ∀ (ops : List ModelOp) (st : ModelStore) (modelRef : ℕ),
      modelRef < st.length →
      ((trainingRun ops st modelRef).1)[modelRef]? = st[modelRef]? := by
  intro ops st modelRef h
  unfold trainingRun
  rw [runModelOps_frame ops _ _ _ (by simp; omega) (by omega)]
  exact List.getElem?_append_left h

/-- Witness for `training_leaves_argument_model_unchanged`: a store holding
one model with parameters `[1, 2]`, trained with one optimizer step (adding 1
to every parameter) and one snapshot; the original reference still holds
`[1, 2]`. -/
theorem training_leaves_argument_model_unchanged_witness :
    (0 : ℕ) < ([[(1 : ℚ), 2]] : ModelStore).length ∧
    ((trainingRun
        [ModelOp.step (fun p => p.map (fun q => q + 1)), ModelOp.snapshot]
        [[(1 : ℚ), 2]] 0).1)[0]? = ([[(1 : ℚ), 2]] : ModelStore)[0]? :=
  ⟨by decide,
    training_leaves_argument_model_unchanged _ [[(1 : ℚ), 2]] 0 (by decide)⟩

/-- C6: each from-scratch Dataset class is a consistent file-reading
adapter.  For every walked directory and extension pattern (`.png` for
`ImageDataset`, `.wav` for `SpeechDataset`, `.txt` for `TextDataset`):
`len(dataset)` equals the number of walked files matching the pattern; the
stored path list is ascending (lexicographically sorted) and is a
permutation of the matching files — hence it is exactly the sorted list of
those paths — and `__getitem__(index)` reads the path at position `index` of
that sorted list. -/
theorem dataset_file_adapter :
    ∀ (walkFiles : List String) (ext : String),
      datasetLen ext walkFiles = (findFiles ext walkFiles).length ∧
      (datasetPathList ext walkFiles).Sorted (· ≤ ·) ∧
      (datasetPathList ext walkFiles).Perm (findFiles ext walkFiles) ∧
      ∀ index : ℕ,
        datasetGetPath ext walkFiles index =
          (datasetPathList ext walkFiles).get? index := by
  intro walkFiles ext
  refine ⟨?_, ?_, ?_, fun index => rfl⟩
  · exact (List.perm_insertionSort (· ≤ ·) (findFiles ext walkFiles)).length_eq
  · exact List.sorted_insertionSort (· ≤ ·) (findFiles ext walkFiles)
  · exact List.perm_insertionSort (· ≤ ·) (findFiles ext walkFiles)

/-- Witness for `epoch_one_full_pass` at the lab-3 configuration shape:
16 samples, batch size 8, `drop_last=True`.  The batch size is positive and
divides the dataset length, each yielded batch is consumed once, and the
batches concatenate to the dataset. -/
theorem epoch_one_full_pass_witness :
    ((0 : ℕ) < 8 ∧ (8 : ℕ) ∣ (List.range 16).length) ∧
    (epochConsumedBatches (dataloaderBatches 8 true (List.range 16)) =
        dataloaderBatches 8 true (List.range 16) ∧
      (dataloaderBatches 8 true (List.range 16)).flatten = List.range 16) :=
  ⟨⟨by decide, by decide⟩,
    epoch_one_full_pass (List.range 16) 8 true (by decide) (Or.inr (by decide))⟩

/-- Witness for `dataset_normalization_amended` at a concrete 8-bit image:
the pixels `[0, 255]` satisfy the 8-bit bound and the returned entries lie in
`[0, 1]`. -/
theorem dataset_normalization_amended_witness :
    (∀ p ∈ [0, 255], p ≤ 255) ∧
    (∀ v ∈ imageGetItemPixels [0, 255], 0 ≤ v ∧ v ≤ 1) :=
  ⟨by decide, dataset_normalization_amended.2.1 [0, 255] (by decide)⟩

end DeepLearningLabs
